import Mathlib

/-!
Shallow embedding of the ToneSeq step sequencer (src/app.js) and proofs of
the specified properties: chord grouping, step-order generation, the playback
clock with deferred mode changes, the velocity law, graph synchronization,
sequence-edge distances, the radial layout, and control-input handling.
-/

/-- The 13 fixed pitches, ordered high to low (C5 at top, C4 at bottom);
the NOTES constant of src/app.js. -/
def NOTES : List String :=
  ["C5", "B4", "A#4", "A4", "G#4", "G4", "F#4", "F4", "E4", "D#4", "D4", "C#4", "C4"]

/-- Number of steps in the loop (STEPS constant of src/app.js). -/
def STEPS : Nat := 16

/-- The boolean note-by-step matrix: g note step = true when the cell is
active. Only cells with note in NOTES and step below STEPS are ever read. -/
abbrev Grid : Type := String → Nat → Bool

/-- Unique node ID for one occurrence of a note at a specific step
(the eventId arrow function of src/app.js). -/
def eventId (note : String) (step : Nat) : String := note ++ "@" ++ toString step

/-- One entry of the chordGroups map of src/app.js: the active notes at a
step (high to low), their event-node ids, and the lowest pitch as anchor. -/
structure ChordGroup where
  notes : List String
  nodeIds : List String
  anchor : String
  anchorId : String
  deriving Repr, DecidableEq, Inhabited

/-- The per-step body of the buildChordGroups loop: the active notes at step
s in NOTES order, the event-node ids, and the last element (lowest pitch) as
anchor; none when no note is active at s. -/
def groupAt (g : Grid) (s : Nat) : Option ChordGroup :=
  let notesAtStep := NOTES.filter (fun n => g n s)
  if notesAtStep.isEmpty then none
  else
    let nodeIds := notesAtStep.map (fun n => eventId n s)
    some { notes := notesAtStep, nodeIds := nodeIds,
           anchor := notesAtStep.getLastD "", anchorId := nodeIds.getLastD "" }

/-- buildChordGroups of src/app.js: the Map from step to ChordGroup, as an
association list in increasing step order (a JS Map iterates in insertion
order, which is increasing s here). -/
def buildChordGroups (g : Grid) : List (Nat × ChordGroup) :=
  (List.range STEPS).filterMap (fun s => (groupAt g s).map (fun grp => (s, grp)))

/-- stepSequence as rebuilt at the top of updateGraph in src/app.js: for each
step 0..15 present in the chord-group map, the pair of the step and its
group, in step order. -/
def stepSequenceOf (g : Grid) : List (Nat × ChordGroup) :=
  (List.range STEPS).filterMap (fun s =>
    ((buildChordGroups g).lookup s).map (fun grp => (s, grp)))

/-- getStepArray of src/app.js: the ordered step array for a playback mode. -/
def getStepArray (mode : String) : List Nat :=
  let fwd := List.range STEPS
  if mode = "reverse" then fwd.reverse
  else if mode = "pingpong" then fwd ++ fwd.reverse
  else fwd

/-- The playback-clock state of src/app.js: the module-level variables
playbackMode, pendingPlaybackMode, activeStepArray, seqPosition, isPlaying. -/
structure PlaybackState where
  playbackMode : String
  pendingPlaybackMode : Option String
  activeStepArray : List Nat
  seqPosition : Nat
  isPlaying : Bool
  deriving Repr, DecidableEq, Inhabited

/-- The effect of buildLoop in src/app.js on playback state: the active step
array is rebuilt for the current mode and the cursor reset to 0. -/
def buildLoopState (st : PlaybackState) : PlaybackState :=
  { st with activeStepArray := getStepArray st.playbackMode, seqPosition := 0 }

/-- One tick of the scheduleRepeat callback in buildLoop (src/app.js lines
117-128): at the pass boundary (cursor 0) a pending mode change is applied
first, then the current step and next raw grid step are resolved and the
cursor advanced. Returns the new state, the resolved step and the next raw
grid step. -/
def tickState (st : PlaybackState) : PlaybackState × Nat × Nat :=
  let st1 :=
    match st.pendingPlaybackMode with
    | some m =>
        if st.seqPosition = 0 then
          { st with playbackMode := m, pendingPlaybackMode := none,
                    activeStepArray := getStepArray m }
        else st
    | none => st
  let step := st1.activeStepArray.getD st1.seqPosition 0
  let nextPos := (st1.seqPosition + 1) % st1.activeStepArray.length
  let nextGridStep := st1.activeStepArray.getD nextPos 0
  ({ st1 with seqPosition := nextPos }, step, nextGridStep)

/-- k successive clock ticks (state part only). -/
def tickN : Nat → PlaybackState → PlaybackState
  | 0, st => st
  | k + 1, st => tickN k (tickState st).1

/-- setPlaybackMode of src/app.js: while playing the change is queued for the
next loop boundary, otherwise it is applied immediately via buildLoop. -/
def setPlaybackMode (mode : String) (st : PlaybackState) : PlaybackState :=
  if st.isPlaying then { st with pendingPlaybackMode := some mode }
  else buildLoopState { st with playbackMode := mode }

/-- stop of src/app.js as it affects playback state: a no-op when already
stopped; otherwise playback halts, the cursor resets to 0, and a pending
mode change, if any, is flushed (become the active mode, array rebuilt). -/
def stop (st : PlaybackState) : PlaybackState :=
  if !st.isPlaying then st
  else
    let st1 := { st with isPlaying := false, seqPosition := 0 }
    match st1.pendingPlaybackMode with
    | some m =>
        buildLoopState { st1 with playbackMode := m, pendingPlaybackMode := none }
    | none => st1

/-- The activeNotes computation of the tick callback: notes active at the
resolved step, in NOTES (high to low) order. -/
def activeNotesAt (g : Grid) (step : Nat) : List String :=
  NOTES.filter (fun n => g n step)

/-- The velocity passed to triggerAttackRelease for a chord of k notes:
equal-power compensation, 1 over the square root of k. -/
noncomputable def velocity (k : Nat) : ℝ := 1 / Real.sqrt k

/-- The audio-trigger decision of one tick (src/app.js lines 130-135): when
the active-note list at the resolved step is non-empty, the synth is
triggered once with the full list and velocity 1 / sqrt k; otherwise there
is no trigger. -/
noncomputable def tickTrigger (g : Grid) (st : PlaybackState) : Option (List String × ℝ) :=
  let step := (tickState st).2.1
  let activeNotes := activeNotesAt g step
  if activeNotes.length > 0 then some (activeNotes, velocity activeNotes.length)
  else none

/-- Claim C2: getStepArray is a pure deterministic function of the mode;
the forward array has length 16 and equals [0..15], the reverse array is its
exact reverse [15..0], and the pingpong array has length 32 and equals the
forward array concatenated with the reverse array, visiting 0..15 then 15..0
in full. -/
theorem getStepArray_spec :
    getStepArray "forward" = [0, 1, 2, 3, 4, 5, 6, 7, 8, 9, 10, 11, 12, 13, 14, 15] ∧
    (getStepArray "forward").length = 16 ∧
    getStepArray "reverse" = (getStepArray "forward").reverse ∧
    (getStepArray "reverse").length = 16 ∧
    getStepArray "pingpong" = getStepArray "forward" ++ (getStepArray "forward").reverse ∧
    (getStepArray "pingpong").length = 32 := by
  decide

/-- A tick taken away from the pass boundary changes neither the active mode,
nor the active step array, nor the pending slot. -/
theorem tickState_preserves_of_pos (st : PlaybackState) (h : st.seqPosition ≠ 0) :
    (tickState st).1.playbackMode = st.playbackMode ∧
    (tickState st).1.activeStepArray = st.activeStepArray ∧
    (tickState st).1.pendingPlaybackMode = st.pendingPlaybackMode := by
  cases hp : st.pendingPlaybackMode <;> simp [tickState, hp, h]

/-- As long as the cursor has not returned to 0, iterated ticks leave the
active mode, the active step array and the pending slot unchanged. -/
theorem tickN_preserves (k : Nat) : ∀ st : PlaybackState,
    (∀ j, j < k → (tickN j st).seqPosition ≠ 0) →
    (tickN k st).playbackMode = st.playbackMode ∧
    (tickN k st).activeStepArray = st.activeStepArray ∧
    (tickN k st).pendingPlaybackMode = st.pendingPlaybackMode := by
  induction k with
  | zero => intro st _; simp [tickN]
  | succ k ih =>
    intro st h
    have h0 : st.seqPosition ≠ 0 := by
      have := h 0 (Nat.succ_pos k)
      simpa [tickN] using this
    have hpres := tickState_preserves_of_pos st h0
    have hsh : ∀ j, j < k → (tickN j (tickState st).1).seqPosition ≠ 0 := by
      intro j hj
      have := h (j + 1) (Nat.succ_lt_succ hj)
      simpa [tickN] using this
    have hrest := ih (tickState st).1 hsh
    refine ⟨?_, ?_, ?_⟩
    · calc (tickN (k + 1) st).playbackMode
          = (tickN k (tickState st).1).playbackMode := by simp [tickN]
        _ = (tickState st).1.playbackMode := hrest.1
        _ = st.playbackMode := hpres.1
    · calc (tickN (k + 1) st).activeStepArray
          = (tickN k (tickState st).1).activeStepArray := by simp [tickN]
        _ = (tickState st).1.activeStepArray := hrest.2.1
        _ = st.activeStepArray := hpres.2.1
    · calc (tickN (k + 1) st).pendingPlaybackMode
          = (tickN k (tickState st).1).pendingPlaybackMode := by simp [tickN]
        _ = (tickState st).1.pendingPlaybackMode := hrest.2.2
        _ = st.pendingPlaybackMode := hpres.2.2

/-- Claim C3: a mode change to M requested while playing with the cursor at
p > 0 only sets the pending slot; the active mode and step-order array stay
unchanged on every subsequent tick until the cursor returns to 0; on the
first tick at cursor 0 with a pending mode, the pending mode becomes active
and the active order becomes getStepArray M before that tick reads its step;
a mode change requested while stopped is applied immediately. -/
theorem playbackMode_boundary_application (M : String) (st : PlaybackState) :
    (st.isPlaying = true → 0 < st.seqPosition →
      (setPlaybackMode M st).playbackMode = st.playbackMode ∧
      (setPlaybackMode M st).activeStepArray = st.activeStepArray ∧
      (setPlaybackMode M st).seqPosition = st.seqPosition ∧
      (setPlaybackMode M st).pendingPlaybackMode = some M) ∧
    (∀ k, (∀ j, j < k → (tickN j st).seqPosition ≠ 0) →
      (tickN k st).playbackMode = st.playbackMode ∧
      (tickN k st).activeStepArray = st.activeStepArray) ∧
    (st.seqPosition = 0 → st.pendingPlaybackMode = some M →
      (tickState st).1.playbackMode = M ∧
      (tickState st).1.activeStepArray = getStepArray M ∧
      (tickState st).1.pendingPlaybackMode = none ∧
      (tickState st).2.1 = (getStepArray M).getD 0 0) ∧
    (st.isPlaying = false →
      (setPlaybackMode M st).playbackMode = M ∧
      (setPlaybackMode M st).activeStepArray = getStepArray M ∧
      (setPlaybackMode M st).seqPosition = 0) := by
  refine ⟨?_, ?_, ?_, ?_⟩
  · intro hp _
    simp [setPlaybackMode, hp]
  · intro k hk
    exact ⟨(tickN_preserves k st hk).1, (tickN_preserves k st hk).2.1⟩
  · intro h0 hpend
    simp [tickState, h0, hpend]
  · intro hp
    simp [setPlaybackMode, buildLoopState, hp]

/-- Example playing state with a queued mode change, cursor mid-pass. -/
def stEx3 : PlaybackState :=
  { playbackMode := "forward", pendingPlaybackMode := some "reverse",
    activeStepArray := getStepArray "forward", seqPosition := 3, isPlaying := true }

theorem playbackMode_boundary_application_witness :
    stEx3.isPlaying = true ∧ 0 < stEx3.seqPosition ∧
    (setPlaybackMode "reverse" stEx3).pendingPlaybackMode = some "reverse" ∧
    (tickN 2 stEx3).activeStepArray = stEx3.activeStepArray :=
  ⟨rfl, by decide,
   ((playbackMode_boundary_application "reverse" stEx3).1 rfl (by decide)).2.2.2,
   ((playbackMode_boundary_application "reverse" stEx3).2.1 2 (by decide)).2⟩

/-- Claim C8: calling stop on a running system resets the cursor to 0 and,
when the pending-mode slot is non-empty, flushes it: the pending mode becomes
the active mode, the active step-order array is regenerated for it, and the
slot is cleared; when the slot is empty the mode and array are untouched. -/
theorem stop_resets_and_flushes (st : PlaybackState) (h : st.isPlaying = true) :
    (stop st).seqPosition = 0 ∧ (stop st).isPlaying = false ∧
    (∀ m, st.pendingPlaybackMode = some m →
      (stop st).playbackMode = m ∧ (stop st).pendingPlaybackMode = none ∧
      (stop st).activeStepArray = getStepArray m) ∧
    (st.pendingPlaybackMode = none →
      (stop st).playbackMode = st.playbackMode ∧
      (stop st).pendingPlaybackMode = none ∧
      (stop st).activeStepArray = st.activeStepArray) := by
  cases hp : st.pendingPlaybackMode with
  | none => simp [stop, buildLoopState, h, hp]
  | some m => simp [stop, buildLoopState, h, hp]

theorem stop_resets_and_flushes_witness :
    stEx3.isPlaying = true ∧ (stop stEx3).seqPosition = 0 ∧
    (stop stEx3).playbackMode = "reverse" ∧
    (stop stEx3).activeStepArray = getStepArray "reverse" :=
  ⟨rfl, (stop_resets_and_flushes stEx3 rfl).1,
   ((stop_resets_and_flushes stEx3 rfl).2.2.1 "reverse" rfl).1,
   ((stop_resets_and_flushes stEx3 rfl).2.2.1 "reverse" rfl).2.2⟩

/-- Claim C4: on every clock tick, if the set of pitches active at the
resolved step is non-empty, the synth is triggered exactly once with the
full pitch set and velocity 1 / sqrt k where k is the number of
simultaneously active pitches (k = 1 gives 1.0, k = 4 gives 0.5); if the
set is empty, no trigger occurs at that tick. -/
theorem tick_trigger_velocity (g : Grid) (st : PlaybackState) :
    (activeNotesAt g (tickState st).2.1 = [] → tickTrigger g st = none) ∧
    (activeNotesAt g (tickState st).2.1 ≠ [] →
      tickTrigger g st =
        some (activeNotesAt g (tickState st).2.1,
              velocity (activeNotesAt g (tickState st).2.1).length)) ∧
    velocity 1 = 1 ∧ velocity 4 = 1 / 2 := by
  refine ⟨?_, ?_, ?_, ?_⟩
  · intro h; simp [tickTrigger, h]
  · intro h
    have hl : 0 < (activeNotesAt g (tickState st).2.1).length := List.length_pos.mpr h
    simp [tickTrigger, hl]
  · simp [velocity]
  · show (1 : ℝ) / Real.sqrt ((4 : ℕ) : ℝ) = 1 / 2
    rw [show ((4 : ℕ) : ℝ) = 2 ^ 2 by norm_num,
        Real.sqrt_sq (by norm_num : (0 : ℝ) ≤ 2)]

/-- Example grid: a four-note chord (A4, G4, E4, C4) at step 0 and a lone C4
at step 8. -/
def gridEx : Grid := fun n s =>
  (n = "C4" && (s == 0 || s == 8)) || ((n = "A4" || n = "G4" || n = "E4") && s == 0)

/-- Example playing state at the start of a forward pass, nothing pending. -/
def stEx : PlaybackState :=
  { playbackMode := "forward", pendingPlaybackMode := none,
    activeStepArray := getStepArray "forward", seqPosition := 0, isPlaying := true }

theorem tick_trigger_velocity_witness :
    activeNotesAt gridEx (tickState stEx).2.1 ≠ [] ∧
    tickTrigger gridEx stEx =
      some (activeNotesAt gridEx (tickState stEx).2.1,
            velocity (activeNotesAt gridEx (tickState stEx).2.1).length) :=
  ⟨by decide, (tick_trigger_velocity gridEx stEx).2.1 (by decide)⟩

/-- Lookup misses an association list built over keys the key is not among. -/
theorem lookup_filterMap_pair_eq_none {α : Type} (f : Nat → Option α) (l : List Nat)
    (s : Nat) (h : s ∉ l) :
    (l.filterMap (fun t => (f t).map (fun v => (t, v)))).lookup s = none := by
  induction l with
  | nil => simp
  | cons a l ih =>
    have hne : s ≠ a := by
      intro he; exact h (he ▸ List.mem_cons_self a l)
    have hl : s ∉ l := fun hm => h (List.mem_cons_of_mem a hm)
    cases hf : f a <;>
      simp [hf, List.lookup, beq_eq_false_iff_ne.mpr hne, ih hl]

/-- On an association list built over distinct keys, lookup of a present key
returns exactly the generating function value at that key. -/
theorem lookup_filterMap_pair {α : Type} (f : Nat → Option α) (l : List Nat) (s : Nat)
    (hmem : s ∈ l) (hnd : l.Nodup) :
    (l.filterMap (fun t => (f t).map (fun v => (t, v)))).lookup s = f s := by
  induction l with
  | nil => cases hmem
  | cons a l ih =>
    rcases List.mem_cons.mp hmem with he | hm
    · subst he
      have hnotin : s ∉ l := (List.nodup_cons.mp hnd).1
      cases hf : f s with
      | none => simp [hf, lookup_filterMap_pair_eq_none f l s hnotin]
      | some v => simp [hf, List.lookup]
    · have hne : s ≠ a := by
        rintro rfl; exact (List.nodup_cons.mp hnd).1 hm
      cases hf : f a <;>
        simp [hf, List.lookup, beq_eq_false_iff_ne.mpr hne,
              ih hm (List.nodup_cons.mp hnd).2]

/-- Looking up a step below STEPS in the chord-group map gives the per-step
group computation. -/
theorem buildChordGroups_lookup (g : Grid) (s : Nat) (hs : s < STEPS) :
    (buildChordGroups g).lookup s = groupAt g s :=
  lookup_filterMap_pair (groupAt g) (List.range STEPS) s
    (List.mem_range.mpr hs) (List.nodup_range STEPS)

/-- Steps at or above STEPS are never in the chord-group map. -/
theorem buildChordGroups_lookup_ge (g : Grid) (s : Nat) (hs : STEPS ≤ s) :
    (buildChordGroups g).lookup s = none :=
  lookup_filterMap_pair_eq_none (groupAt g) (List.range STEPS) s
    (by simp [List.mem_range]; omega)

/-- Claim C1: for every grid G and step s in 0..15, buildChordGroups G has an
entry for s iff at least one of the 13 pitches is active at s; when present,
the pitch list is exactly the active pitches in the canonical high-to-low
pitch order (hence never empty), the anchor is the last element of that list
(the lowest active pitch), the node ids are the per-occurrence event ids and
the anchor id is the last of them; an empty grid yields an empty map. -/
theorem buildChordGroups_spec (g : Grid) (s : Nat) (hs : s < STEPS) :
    (((buildChordGroups g).lookup s).isSome ↔ ∃ n ∈ NOTES, g n s = true) ∧
    (∀ grp, (buildChordGroups g).lookup s = some grp →
      grp.notes = NOTES.filter (fun n => g n s) ∧
      grp.notes ≠ [] ∧
      grp.anchor = grp.notes.getLastD "" ∧
      grp.nodeIds = grp.notes.map (fun n => eventId n s) ∧
      grp.anchorId = grp.nodeIds.getLastD "") ∧
    ((∀ n ∈ NOTES, ∀ t, t < STEPS → g n t = false) → buildChordGroups g = []) := by
  have hlk := buildChordGroups_lookup g s hs
  refine ⟨?_, ?_, ?_⟩
  · rw [hlk]
    unfold groupAt
    by_cases he : (NOTES.filter (fun n => g n s)).isEmpty
    · simp only [he, if_true, Option.isSome_none, Bool.false_eq_true, false_iff]
      rintro ⟨n, hn, hg⟩
      have hmem : n ∈ NOTES.filter (fun n => g n s) := List.mem_filter.mpr ⟨hn, hg⟩
      rw [List.isEmpty_iff.mp he] at hmem
      cases hmem
    · simp only [he, if_false, Option.isSome_some, Bool.false_eq_true, true_iff]
      have hne : NOTES.filter (fun n => g n s) ≠ [] := by
        intro h0; exact he (List.isEmpty_iff.mpr h0)
      obtain ⟨n, hn⟩ := List.exists_mem_of_ne_nil _ hne
      exact ⟨n, (List.mem_filter.mp hn).1, (List.mem_filter.mp hn).2⟩
  · intro grp hgrp
    rw [hlk] at hgrp
    unfold groupAt at hgrp
    by_cases he : (NOTES.filter (fun n => g n s)).isEmpty
    · simp [he] at hgrp
    · simp only [he, Bool.false_eq_true, if_false, Option.some_inj] at hgrp
      have hne : NOTES.filter (fun n => g n s) ≠ [] := by
        intro h0; exact he (List.isEmpty_iff.mpr h0)
      subst hgrp
      exact ⟨rfl, hne, rfl, rfl, rfl⟩
  · intro hempty
    unfold buildChordGroups
    refine List.filterMap_eq_nil_iff.mpr ?_
    intro t ht
    have hfe : NOTES.filter (fun n => g n t) = [] := by
      refine List.filter_eq_nil_iff.mpr ?_
      intro n hn
      simp [hempty n hn t (List.mem_range.mp ht)]
    simp [groupAt, hfe]

theorem buildChordGroups_spec_witness :
    0 < STEPS ∧ ((buildChordGroups gridEx).lookup 0).isSome :=
  ⟨by decide,
   ((buildChordGroups_spec gridEx 0 (by decide)).1).mpr ⟨"C4", by decide, by decide⟩⟩

/-- A graph edge record: id, endpoint node ids, edge type, and the optional
step-distance attribute carried by sequence edges. -/
structure GEdge where
  id : String
  source : String
  target : String
  etype : String
  dist : Option Int
  deriving Repr, DecidableEq, Inhabited

/-- The chord-stack pipe edges of updateGraph (src/app.js lines 464-477):
within each group, one edge from each node to the next one towards the
anchor (top to bottom), only for groups of at least two members. -/
def stackEdgesOf (cg : List (Nat × ChordGroup)) : List GEdge :=
  cg.flatMap (fun p =>
    (List.range (p.2.nodeIds.length - 1)).map (fun i =>
      { id := "stack-" ++ toString p.1 ++ "-" ++ toString i,
        source := p.2.nodeIds.getD i "",
        target := p.2.nodeIds.getD (i + 1) "",
        etype := "chord-stack", dist := none }))

/-- The sequence edges of updateGraph (src/app.js lines 479-498): for a step
sequence of length at least 2, one edge per index from the anchor to the
next anchor in cyclic order, annotated with the step distance (for the last
entry wrapping past the last step back to the first) clamped to 1. -/
def seqEdgesOf (ss : List (Nat × ChordGroup)) : List GEdge :=
  if 2 ≤ ss.length then
    let n := ss.length
    (List.range n).map (fun i =>
      let cur := ss.getD i (0, default)
      let next := ss.getD ((i + 1) % n) (0, default)
      let dist0 : Int :=
        if i < n - 1 then (next.1 : Int) - (cur.1 : Int)
        else ((STEPS : Int) - (cur.1 : Int)) + (next.1 : Int)
      { id := "seq-" ++ toString i,
        source := cur.2.anchorId, target := next.2.anchorId,
        etype := "sequence", dist := some (max dist0 1) })
  else []

/-- The sequence-edge computation as a function of the whole module state
updateGraph can read: it uses only the grid-derived step sequence, never the
playback fields. -/
def seqEdgesOfApp (g : Grid) (_st : PlaybackState) : List GEdge :=
  seqEdgesOf (stepSequenceOf g)

/-- Stated from the claim wording, for comparison with the source formula:
the forward wraparound step distance from step a to step b, wrapping past
step 15 back to step 0. -/
def specFwdWrapDist (a b : Nat) : Int :=
  if a < b then (b : Int) - (a : Int) else ((STEPS : Int) - (a : Int)) + (b : Int)

/-- The step sequence rebuilt in updateGraph is the chord-group association
list itself. -/
theorem stepSequenceOf_eq (g : Grid) : stepSequenceOf g = buildChordGroups g := by
  unfold stepSequenceOf
  have hpt : ∀ s ∈ List.range STEPS,
      ((buildChordGroups g).lookup s).map (fun grp => (s, grp)) =
      (groupAt g s).map (fun grp => (s, grp)) := by
    intro s hs
    rw [buildChordGroups_lookup g s (List.mem_range.mp hs)]
  exact List.filterMap_congr hpt

/-- The step sequence is strictly increasing in its step component. -/
theorem stepSequence_sorted (g : Grid) :
    (stepSequenceOf g).Pairwise (fun p q => p.1 < q.1) := by
  rw [stepSequenceOf_eq]
  unfold buildChordGroups
  refine (List.pairwise_lt_range STEPS).filterMap _ ?_
  intro a a' hlt b hb b' hb'
  cases hga : groupAt g a with
  | none => rw [hga] at hb; cases hb
  | some v =>
    cases hga' : groupAt g a' with
    | none => rw [hga'] at hb'; cases hb'
    | some v' =>
      rw [hga] at hb
      rw [hga'] at hb'
      simp only [Option.map_some', Option.mem_def, Option.some_inj] at hb hb'
      subst hb
      subst hb'
      simpa using hlt

/-- Example grid: a single cell (C4) active at step 0 and another at step 8. -/
def gridEx2 : Grid := fun n s => n = "C4" && (s == 0 || s == 8)

/-- Claim C6: with at least two chord groups present, a sequence edge runs
from each chord anchor to the next chord anchor in increasing-step cyclic
order, annotated with the forward wraparound step distance (wrapping past
step 15 back to step 0) clamped to a minimum of 1; the edge list is computed
from the grid-derived step sequence alone, hence independent of the playback
mode; for a grid whose chords are exactly at steps 0 and 8 both edges carry
distance 8. -/
theorem sequence_edges_spec (g : Grid) :
    (2 ≤ (stepSequenceOf g).length →
      (seqEdgesOf (stepSequenceOf g)).length = (stepSequenceOf g).length ∧
      (∀ i, i < (stepSequenceOf g).length →
        (seqEdgesOf (stepSequenceOf g)).getD i default =
          { id := "seq-" ++ toString i,
            source := ((stepSequenceOf g).getD i (0, default)).2.anchorId,
            target := ((stepSequenceOf g).getD ((i + 1) % (stepSequenceOf g).length)
              (0, default)).2.anchorId,
            etype := "sequence",
            dist := some (max (specFwdWrapDist
              ((stepSequenceOf g).getD i (0, default)).1
              ((stepSequenceOf g).getD ((i + 1) % (stepSequenceOf g).length)
                (0, default)).1) 1) })) ∧
    (∀ st st' : PlaybackState, seqEdgesOfApp g st = seqEdgesOfApp g st') ∧
    (seqEdgesOf (stepSequenceOf gridEx2)).map (fun e => e.dist) = [some 8, some 8] := by
  refine ⟨?_, fun _ _ => rfl, by decide⟩
  intro h2
  have hpw := List.pairwise_iff_getElem.mp (stepSequence_sorted g)
  refine ⟨by simp [seqEdgesOf, h2], ?_⟩
  intro i hi
  rw [seqEdgesOf, if_pos h2]
  rw [List.getD_eq_getElem _ _ (by simpa using hi)]
  simp only [List.getElem_map, List.getElem_range]
  have hdist :
      (if i < (stepSequenceOf g).length - 1 then
        (((stepSequenceOf g).getD ((i + 1) % (stepSequenceOf g).length) (0, default)).1 : Int) -
          (((stepSequenceOf g).getD i (0, default)).1 : Int)
      else ((STEPS : Int) - (((stepSequenceOf g).getD i (0, default)).1 : Int)) +
          (((stepSequenceOf g).getD ((i + 1) % (stepSequenceOf g).length) (0, default)).1 : Int)) =
      specFwdWrapDist ((stepSequenceOf g).getD i (0, default)).1
        ((stepSequenceOf g).getD ((i + 1) % (stepSequenceOf g).length) (0, default)).1 := by
    by_cases hlast : i < (stepSequenceOf g).length - 1
    · have hmod : (i + 1) % (stepSequenceOf g).length = i + 1 :=
        Nat.mod_eq_of_lt (by omega)
      have hlt : ((stepSequenceOf g).getD i (0, default)).1 <
          ((stepSequenceOf g).getD (i + 1) (0, default)).1 := by
        rw [List.getD_eq_getElem _ _ (by omega), List.getD_eq_getElem _ _ (by omega)]
        exact hpw i (i + 1) (by omega) (by omega) (by omega)
      rw [hmod, if_pos hlast, specFwdWrapDist, if_pos hlt]
    · have hmod : (i + 1) % (stepSequenceOf g).length = 0 := by
        have hieq : i + 1 = (stepSequenceOf g).length := by omega
        rw [hieq, Nat.mod_self]
      have hlt0 : ((stepSequenceOf g).getD 0 (0, default)).1 <
          ((stepSequenceOf g).getD i (0, default)).1 := by
        rw [List.getD_eq_getElem _ _ (by omega), List.getD_eq_getElem _ _ (by omega)]
        exact hpw 0 i (by omega) (by omega) (by omega)
      have hnlt : ¬ (((stepSequenceOf g).getD i (0, default)).1 <
          ((stepSequenceOf g).getD 0 (0, default)).1) := by omega
      rw [hmod, if_neg hlast, specFwdWrapDist, if_neg hnlt]
  rw [hdist]

theorem sequence_edges_spec_witness :
    2 ≤ (stepSequenceOf gridEx2).length ∧
    (seqEdgesOf (stepSequenceOf gridEx2)).length = (stepSequenceOf gridEx2).length :=
  ⟨by decide, ((sequence_edges_spec gridEx2).1 (by decide)).1⟩

/-- The node set created by initGraph (src/app.js line 308): only the
traversal ball marker, with zero opacity. -/
def initGraphNodes : List String := ["__ball__"]

/-- The currently valid event-node ids of a grid, in chord-group order
(the activeIds set of updateGraph). -/
def activeIdsOf (g : Grid) : List String :=
  ((buildChordGroups g).map (fun p => p.2.nodeIds)).flatten

/-- The outcome of one updateGraph run (src/app.js lines 410-504) on graph
topology: the surviving plus newly added node ids, the rebuilt edge list,
the ball opacity it sets, and whether the layout pass (positionNodes) ran. -/
structure GraphUpdate where
  nodes : List String
  edges : List GEdge
  ballOpacity : Int
  layoutRan : Bool
  deriving Repr, DecidableEq

/-- updateGraph of src/app.js as a function of the grid and the previous
node and edge lists: all edges are dropped up front, the ball is stopped and
hidden, stale event nodes (ids no longer valid) are removed while the ball
is always kept, valid ids not present are added, and unless the grid has no
active cell, the stack and sequence edges are rebuilt and the layout pass
runs. -/
def updateGraphModel (g : Grid) (oldNodes : List String) (_oldEdges : List GEdge) :
    GraphUpdate :=
  let cg := buildChordGroups g
  let activeIds := activeIdsOf g
  let kept := oldNodes.filter (fun id => id == "__ball__" || activeIds.contains id)
  let added := activeIds.filter (fun id => !(kept.contains id))
  let nodes := kept ++ added
  if activeIds.length = 0 then
    { nodes := nodes, edges := [], ballOpacity := 0, layoutRan := false }
  else
    { nodes := nodes, edges := stackEdgesOf cg ++ seqEdgesOf (stepSequenceOf g),
      ballOpacity := 0, layoutRan := true }

/-- The grid with no active cell. -/
def emptyGrid : Grid := fun _ _ => false

/-- Claim C9: the traversal marker node is never removed: every rebuild
keeps an old node exactly when it is the marker or its id is in the valid
(pitch, step) id set; the edge output is independent of the previous edges
(all are removed and rebuilt); when a mutation leaves zero active cells,
every node except the marker is removed, the edge list is empty and no
layout pass runs; the marker is only hidden (opacity 0); initGraph creates
the marker. -/
theorem marker_preservation_spec (g : Grid) (oldNodes : List String)
    (oldEdges : List GEdge) :
    ("__ball__" ∈ oldNodes → "__ball__" ∈ (updateGraphModel g oldNodes oldEdges).nodes) ∧
    (∀ id ∈ oldNodes,
      (id ∈ (updateGraphModel g oldNodes oldEdges).nodes ↔
        id = "__ball__" ∨ id ∈ activeIdsOf g)) ∧
    (∀ oldEdges2, updateGraphModel g oldNodes oldEdges2 =
      updateGraphModel g oldNodes oldEdges) ∧
    (updateGraphModel g oldNodes oldEdges).ballOpacity = 0 ∧
    (activeIdsOf g = [] →
      (updateGraphModel g oldNodes oldEdges).nodes =
        oldNodes.filter (fun id => id == "__ball__") ∧
      (updateGraphModel g oldNodes oldEdges).edges = [] ∧
      (updateGraphModel g oldNodes oldEdges).layoutRan = false) ∧
    "__ball__" ∈ initGraphNodes := by
  have hnodes : (updateGraphModel g oldNodes oldEdges).nodes =
      oldNodes.filter (fun id => id == "__ball__" || (activeIdsOf g).contains id) ++
      (activeIdsOf g).filter (fun id =>
        !((oldNodes.filter (fun id2 =>
            id2 == "__ball__" || (activeIdsOf g).contains id2)).contains id)) := by
    by_cases hc : (activeIdsOf g).length = 0 <;> simp [updateGraphModel, hc]
  have hmem : ∀ id ∈ oldNodes,
      (id ∈ (updateGraphModel g oldNodes oldEdges).nodes ↔
        id = "__ball__" ∨ id ∈ activeIdsOf g) := by
    intro id hid
    rw [hnodes]
    constructor
    · intro hin
      rcases List.mem_append.mp hin with hk | ha
      · have hcond := (List.mem_filter.mp hk).2
        simpa using hcond
      · exact Or.inr (List.mem_filter.mp ha).1
    · intro hcase
      refine List.mem_append.mpr (Or.inl (List.mem_filter.mpr ⟨hid, ?_⟩))
      simpa using hcase
  refine ⟨fun hb => (hmem _ hb).mpr (Or.inl rfl), hmem, ?_, ?_, ?_, by decide⟩
  · intro oldEdges2
    by_cases hc : (activeIdsOf g).length = 0 <;> simp [updateGraphModel, hc]
  · by_cases hc : (activeIdsOf g).length = 0 <;> simp [updateGraphModel, hc]
  · intro hempty
    have hc : (activeIdsOf g).length = 0 := by rw [hempty]; rfl
    refine ⟨?_, by simp [updateGraphModel, hc], by simp [updateGraphModel, hc]⟩
    rw [hnodes, hempty]
    simp

theorem marker_preservation_spec_witness :
    "__ball__" ∈ ["__ball__", "C4@0"] ∧
    "__ball__" ∈ (updateGraphModel emptyGrid ["__ball__", "C4@0"] []).nodes ∧
    activeIdsOf emptyGrid = [] ∧
    (updateGraphModel emptyGrid ["__ball__", "C4@0"] []).edges = [] :=
  ⟨by decide,
   (marker_preservation_spec emptyGrid ["__ball__", "C4@0"] []).1 (by decide),
   by decide,
   ((marker_preservation_spec emptyGrid ["__ball__", "C4@0"] []).2.2.2.2.1
     (by decide)).2.1⟩

/-- The for-loop of updateGraphPlayhead that walks forward through the
active step array from a starting position, wrapping, and stops at the first
step having a chord group: the index of the first hit among 0..n-1, if any. -/
def nextActiveSearch (g : Grid) (arr : List Nat) (seqPos : Nat) : Option Nat :=
  (List.range arr.length).find? (fun i =>
    ((buildChordGroups g).lookup (arr.getD ((seqPos + i) % arr.length) 0)).isSome)

/-- The traversal-animation decision of updateGraphPlayhead (src/app.js
lines 511-556): given the grid, the active step array, the tempo, the
current step and the next raw grid step, return the source anchor id, the
target anchor id and the animation duration in milliseconds, or none when
the animation is skipped. The rendering-collaborator lookups of the ball and
the anchor nodes are assumed to succeed (updateGraph keeps them in sync). -/
def updateGraphPlayhead (g : Grid) (arr : List Nat) (bpm : ℚ)
    (step nextGridStep : Nat) : Option (String × String × ℚ) :=
  match (buildChordGroups g).lookup step with
  | none => none
  | some srcGroup =>
    if (stepSequenceOf g).length < 2 then none
    else
      match nextActiveSearch g arr (arr.indexOf nextGridStep) with
      | none => none
      | some i =>
        let tgtGroup := ((buildChordGroups g).lookup
          (arr.getD ((arr.indexOf nextGridStep + i) % arr.length) 0)).getD default
        some (srcGroup.anchorId, tgtGroup.anchorId,
          ((max (i + 1) 1 : ℕ) : ℚ) * (60 / bpm / 4 * 1000))

/-- find? over an initial segment of the naturals returns the least index
satisfying the predicate. -/
theorem find?_range_eq_some (n : Nat) : ∀ (p : Nat → Bool) (i : Nat), i < n →
    (∀ j, j < i → p j = false) → p i = true →
    (List.range n).find? p = some i := by
  induction n with
  | zero => intro p i hi _ _; omega
  | succ n ih =>
    intro p i hi hmin hp
    rw [List.range_succ_eq_map]
    rcases Nat.eq_zero_or_pos i with h0 | hpos
    · subst h0
      simp [List.find?, hp]
    · have h00 : p 0 = false := hmin 0 hpos
      rw [List.find?_cons_of_neg _ (by simp [h00]), List.find?_map]
      obtain ⟨k, rfl⟩ : ∃ k, i = k + 1 := ⟨i - 1, by omega⟩
      have hk := ih (fun j => p (j + 1)) k (by omega)
        (fun j hj => hmin (j + 1) (by omega)) hp
      simp only [Function.comp_def]
      rw [hk]
      rfl

/-- find? over an initial segment of the naturals misses when the predicate
fails everywhere below the bound. -/
theorem find?_range_eq_none (n : Nat) (p : Nat → Bool)
    (hall : ∀ j, j < n → p j = false) :
    (List.range n).find? p = none := by
  refine List.find?_eq_none.mpr ?_
  intro a ha
  simp [hall a (List.mem_range.mp ha)]

/-- Claim C5: on each tick the traversal animator, invoked with the current
step and the next raw step, does nothing when the current step has no chord
group; otherwise its target is the nearest active chord found by walking
forward through the active step-order array from the position of the next
raw step (wrapping), its duration is the tick distance (clamped to at least
one) times the sixteenth-note duration at the current tempo; when no next
active chord is reachable the animation is skipped — in particular with
fewer than two chord groups, where the only chord in the map is the current
step itself. -/
theorem playhead_animation_spec (g : Grid) (arr : List Nat) (bpm : ℚ)
    (step nextGridStep : Nat) :
    ((buildChordGroups g).lookup step = none →
      updateGraphPlayhead g arr bpm step nextGridStep = none) ∧
    (∀ src, (buildChordGroups g).lookup step = some src →
      (2 ≤ (stepSequenceOf g).length →
        (∀ i tgt, i < arr.length →
          (∀ j, j < i → (buildChordGroups g).lookup
            (arr.getD ((arr.indexOf nextGridStep + j) % arr.length) 0) = none) →
          (buildChordGroups g).lookup
            (arr.getD ((arr.indexOf nextGridStep + i) % arr.length) 0) = some tgt →
          updateGraphPlayhead g arr bpm step nextGridStep =
            some (src.anchorId, tgt.anchorId,
              ((i + 1 : ℕ) : ℚ) * (60 / bpm / 4 * 1000))) ∧
        ((∀ i, i < arr.length → (buildChordGroups g).lookup
            (arr.getD ((arr.indexOf nextGridStep + i) % arr.length) 0) = none) →
          updateGraphPlayhead g arr bpm step nextGridStep = none)) ∧
      ((stepSequenceOf g).length < 2 →
        updateGraphPlayhead g arr bpm step nextGridStep = none ∧
        (∀ s2, ((buildChordGroups g).lookup s2).isSome = true → s2 = step))) := by
  constructor
  · intro h
    simp [updateGraphPlayhead, h]
  · intro src hsrc
    constructor
    · intro h2
      have hnotlt : ¬ ((stepSequenceOf g).length < 2) := by omega
      constructor
      · intro i tgt hi hminj htgt
        have hfind : nextActiveSearch g arr (arr.indexOf nextGridStep) = some i := by
          refine find?_range_eq_some arr.length _ i hi ?_ ?_
          · intro j hj
            simp only [hminj j hj, Option.isSome_none]
          · simp only [htgt, Option.isSome_some]
        simp only [updateGraphPlayhead, hsrc, hnotlt, if_false, hfind, htgt,
          Option.getD_some]
        have hmax : max (i + 1) 1 = i + 1 := Nat.max_eq_left (Nat.le_add_left 1 i)
        rw [hmax]
      · intro hall
        have hfind : nextActiveSearch g arr (arr.indexOf nextGridStep) = none := by
          refine find?_range_eq_none arr.length _ ?_
          intro j hj
          simp only [hall j hj, Option.isSome_none]
        simp only [updateGraphPlayhead, hsrc, hnotlt, if_false, hfind]
    · intro h1
      have hlen : (buildChordGroups g).length < 2 := by
        rw [← stepSequenceOf_eq g]
        exact h1
      refine ⟨by simp [updateGraphPlayhead, hsrc, h1], ?_⟩
      intro s2 hs2
      cases hcg : buildChordGroups g with
      | nil =>
        rw [hcg] at hsrc
        simp [List.lookup] at hsrc
      | cons hd tl =>
        obtain ⟨a, b⟩ := hd
        have htl : tl = [] := by
          rw [hcg] at hlen
          simp at hlen
          exact List.length_eq_zero.mp (by omega)
        subst htl
        rw [hcg] at hsrc hs2
        have hstep : step = a := by
          by_contra hne
          rw [List.lookup, beq_eq_false_iff_ne.mpr hne] at hsrc
          simp [List.lookup] at hsrc
        have hs2a : s2 = a := by
          by_contra hne
          rw [List.lookup, beq_eq_false_iff_ne.mpr hne] at hs2
          simp [List.lookup] at hs2
        rw [hstep, hs2a]

theorem playhead_animation_spec_witness :
    (buildChordGroups gridEx).lookup 0 =
      some (((buildChordGroups gridEx).lookup 0).getD default) ∧
    2 ≤ (stepSequenceOf gridEx).length ∧
    updateGraphPlayhead gridEx (getStepArray "forward") 120 0 1 =
      some ((((buildChordGroups gridEx).lookup 0).getD default).anchorId,
            (((buildChordGroups gridEx).lookup 8).getD default).anchorId,
            ((7 + 1 : ℕ) : ℚ) * (60 / 120 / 4 * 1000)) :=
  ⟨by decide, by decide,
   (((playhead_animation_spec gridEx (getStepArray "forward") 120 0 1).2
      (((buildChordGroups gridEx).lookup 0).getD default) (by decide)).1
      (by decide)).1 7 (((buildChordGroups gridEx).lookup 8).getD default)
      (by decide) (by decide) (by decide)⟩

/-- JS parseInt with radix 10 applied to a string: leading whitespace is
skipped, an optional sign consumed, then the longest leading run of decimal
digits; the result is none (NaN) when that run is empty, otherwise the
signed value of the digits. -/
def parseIntJS (s : String) : Option Int :=
  let cs := s.toList.dropWhile (fun c => c.isWhitespace)
  let signAndRest : Int × List Char :=
    match cs with
    | c :: cs2 =>
        if c = '-' then (-1, cs2)
        else if c = '+' then (1, cs2)
        else (1, cs)
    | [] => (1, cs)
  let digits := signAndRest.2.takeWhile (fun c => c.isDigit)
  if digits.isEmpty then none
  else
    some (signAndRest.1 *
      ((digits.foldl (fun acc c => acc * 10 + (c.toNat - 48)) 0 : Nat) : Int))

/-- setBPM of src/app.js: the transport tempo is updated only when parseInt
yields a number that is not NaN and is strictly positive; for any other
input the tempo is left unchanged and nothing is raised. -/
def setBPM (val : String) (tempo : Int) : Int :=
  match parseIntJS val with
  | some bpm => if bpm > 0 then bpm else tempo
  | none => tempo

/-- Claim C10: for every input value v, setBPM v changes the tempo only when
parseInt v (radix 10) yields a number that is not NaN and is strictly
greater than 0, in which case the tempo becomes that number; for any other
input (non-numeric, zero, or negative) the tempo is unchanged. -/
theorem setBPM_spec (v : String) (t : Int) :
    (∀ b, parseIntJS v = some b → 0 < b → setBPM v t = b) ∧
    (parseIntJS v = none → setBPM v t = t) ∧
    (∀ b, parseIntJS v = some b → b ≤ 0 → setBPM v t = t) := by
  refine ⟨?_, ?_, ?_⟩
  · intro b hb hpos
    simp [setBPM, hb, hpos]
  · intro h
    simp [setBPM, h]
  · intro b hb hle
    have hng : ¬ (b > 0) := by omega
    simp [setBPM, hb, hng]

theorem setBPM_spec_witness :
    parseIntJS "120" = some 120 ∧ setBPM "120" 99 = 120 ∧
    parseIntJS "abc" = none ∧ setBPM "abc" 99 = 99 ∧
    parseIntJS "-5" = some (-5) ∧ setBPM "-5" 99 = 99 ∧
    parseIntJS "0" = some 0 ∧ setBPM "0" 99 = 99 :=
  ⟨by decide, (setBPM_spec "120" 99).1 120 (by decide) (by decide),
   by decide, (setBPM_spec "abc" 99).2.1 (by decide),
   by decide, (setBPM_spec "-5" 99).2.2 (-5) (by decide) (by decide),
   by decide, (setBPM_spec "0" 99).2.2 0 (by decide) (by decide)⟩

/-- The angle assigned to a step by positionNodes and snapChordStacks in
src/app.js: minus a quarter turn (step 0 at 12 oclock) plus the step
fraction of a full turn, increasing clockwise. -/
noncomputable def anchorAngle (step : Nat) : ℝ :=
  -(Real.pi / 2) + ((step : ℝ) / (STEPS : ℝ)) * (2 * Real.pi)

/-- The circle radius computed by positionNodes (src/app.js lines 377-388):
the maximum of a base radius proportional to the smaller container dimension
and, when more than one chord is present, the minimum radius keeping an
8-unit gap between adjacent 38-unit anchors evenly spaced on the circle. -/
noncomputable def layoutRadius (containerW containerH : ℝ) (n : Nat) : ℝ :=
  let containerMin := min containerW containerH
  let baseR := containerMin * 0.28
  let minR := if 1 < n then (38 + 8) / (2 * Real.sin (Real.pi / (n : ℝ))) else 0
  max baseR minR

/-- The anchor position assigned by positionNodes for a chord at the given
step, where n is the step-sequence length and the circle is centered in the
container. -/
noncomputable def anchorPos (containerW containerH : ℝ) (n : Nat) (step : Nat) : ℝ × ℝ :=
  let r := layoutRadius containerW containerH n
  (containerW / 2 + r * Real.cos (anchorAngle step),
   containerH / 2 + r * Real.sin (anchorAngle step))

/-- Euclidean distance in the plane. -/
noncomputable def dist2D (p q : ℝ × ℝ) : ℝ :=
  Real.sqrt ((p.1 - q.1) ^ 2 + (p.2 - q.2) ^ 2)

theorem dist2D_comm (p q : ℝ × ℝ) : dist2D p q = dist2D q p := by
  unfold dist2D
  ring_nf

/-- Double-angle identity in the form used for chord lengths. -/
theorem cos_double_sin_sq (x : ℝ) : Real.cos (2 * x) = 1 - 2 * Real.sin x ^ 2 := by
  rw [Real.cos_two_mul']
  nlinarith [Real.sin_sq_add_cos_sq x]

/-- Chord length on a circle of radius r: the distance between the points at
angles a and b is 2 r times the absolute sine of half the angle difference. -/
theorem circle_chord_dist (r a b cx cy : ℝ) (hr : 0 ≤ r) :
    dist2D (cx + r * Real.cos a, cy + r * Real.sin a)
           (cx + r * Real.cos b, cy + r * Real.sin b) =
    2 * r * |Real.sin ((a - b) / 2)| := by
  unfold dist2D
  have hcos := cos_double_sin_sq ((a - b) / 2)
  rw [show (2 : ℝ) * ((a - b) / 2) = a - b by ring] at hcos
  have hcomb : Real.cos a * Real.cos b + Real.sin a * Real.sin b =
      1 - 2 * Real.sin ((a - b) / 2) ^ 2 := by
    rw [← Real.cos_sub]
    exact hcos
  have hexp : (cx + r * Real.cos a - (cx + r * Real.cos b)) ^ 2 +
      (cy + r * Real.sin a - (cy + r * Real.sin b)) ^ 2 =
      (2 * r * Real.sin ((a - b) / 2)) ^ 2 := by
    linear_combination (r ^ 2) * Real.sin_sq_add_cos_sq a +
      (r ^ 2) * Real.sin_sq_add_cos_sq b - 2 * r ^ 2 * hcomb
  dsimp only
  rw [hexp, Real.sqrt_sq_eq_abs, abs_mul, abs_mul, abs_two, abs_of_nonneg hr]

/-- Numeric bound: the sine of pi over 16 exceeds 4 / 23. -/
theorem sin_pi_div_16_ge : (4 : ℝ) / 23 ≤ Real.sin (Real.pi / 16) := by
  have hx0 : 0 < Real.pi / 16 := by positivity
  have hx1 : Real.pi / 16 ≤ 1 := by nlinarith [Real.pi_lt_d4]
  have hcube := Real.sin_gt_sub_cube hx0 hx1
  have hxl : (0.19634 : ℝ) < Real.pi / 16 := by nlinarith [Real.pi_gt_d4]
  have hxu : Real.pi / 16 < 0.19635 := by nlinarith [Real.pi_lt_d4]
  have hc : (Real.pi / 16) ^ 3 < (0.19635 : ℝ) ^ 3 :=
    pow_lt_pow_left₀ hxu (le_of_lt hx0) (by norm_num)
  nlinarith [hcube, hxl, hc]

/-- For step differences 1..15, the sine of k pi / 16 is at least 4 / 23. -/
theorem sin_step_lower_bound (k : ℕ) (hk1 : 1 ≤ k) (hk15 : k ≤ 15) :
    (4 : ℝ) / 23 ≤ Real.sin ((k : ℝ) * Real.pi / 16) := by
  have hbase : ∀ m : ℕ, 1 ≤ m → m ≤ 8 →
      (4 : ℝ) / 23 ≤ Real.sin ((m : ℝ) * Real.pi / 16) := by
    intro m hm1 hm8
    have hm1R : (1 : ℝ) ≤ (m : ℝ) := by exact_mod_cast hm1
    have hm8R : (m : ℝ) ≤ 8 := by exact_mod_cast hm8
    have hmono : Real.sin (Real.pi / 16) ≤ Real.sin ((m : ℝ) * Real.pi / 16) := by
      apply Real.sin_le_sin_of_le_of_le_pi_div_two
      · nlinarith [Real.pi_pos]
      · nlinarith [Real.pi_pos]
      · nlinarith [Real.pi_pos]
    exact le_trans sin_pi_div_16_ge hmono
  rcases le_or_lt k 8 with h8 | h8
  · exact hbase k hk1 h8
  · have hk16 : k ≤ 16 := by omega
    have hcast : ((16 - k : ℕ) : ℝ) = 16 - (k : ℝ) := by
      push_cast [Nat.cast_sub hk16]
      ring
    have hid : Real.sin (((16 - k : ℕ) : ℝ) * Real.pi / 16) =
        Real.sin ((k : ℝ) * Real.pi / 16) := by
      rw [hcast, show (16 - (k : ℝ)) * Real.pi / 16 =
        Real.pi - (k : ℝ) * Real.pi / 16 by ring, Real.sin_pi_sub]
    calc (4 : ℝ) / 23
        ≤ Real.sin (((16 - k : ℕ) : ℝ) * Real.pi / 16) :=
          hbase (16 - k) (by omega) (by omega)
      _ = Real.sin ((k : ℝ) * Real.pi / 16) := hid

/-- The layout radius is at least 23 whenever at least two chords are laid
out, because the minimum-radius branch is active and sin is at most 1. -/
theorem layoutRadius_ge (W H : ℝ) (n : Nat) (hn : 2 ≤ n) :
    23 ≤ layoutRadius W H n := by
  have h1n : 1 < n := by omega
  have hnR : (1 : ℝ) < (n : ℝ) := by exact_mod_cast h1n
  have hspos : 0 < Real.sin (Real.pi / (n : ℝ)) := by
    apply Real.sin_pos_of_pos_of_lt_pi
    · positivity
    · exact div_lt_self Real.pi_pos hnR
  have hsle : Real.sin (Real.pi / (n : ℝ)) ≤ 1 := Real.sin_le_one _
  have hminR : (23 : ℝ) ≤ (38 + 8) / (2 * Real.sin (Real.pi / (n : ℝ))) := by
    rw [le_div_iff₀ (by positivity)]
    nlinarith [hsle]
  simp only [layoutRadius, if_pos h1n]
  exact le_trans hminR (le_max_right _ _)

/-- Geometric core of the layout guarantee: any two anchors at distinct
steps below STEPS, placed by the radial layout for a sequence length of at
least 2, are at least 8 units apart (with the first step larger). -/
theorem layout_gap_core (W H : ℝ) (n s1 s2 : Nat) (hn : 2 ≤ n)
    (h1 : s1 < STEPS) (h2 : s2 < s1) :
    8 ≤ dist2D (anchorPos W H n s1) (anchorPos W H n s2) := by
  have hr23 : 23 ≤ layoutRadius W H n := layoutRadius_ge W H n hn
  have hr0 : 0 ≤ layoutRadius W H n := by linarith
  have hpos : ∀ s : Nat, anchorPos W H n s =
      (W / 2 + layoutRadius W H n * Real.cos (anchorAngle s),
       H / 2 + layoutRadius W H n * Real.sin (anchorAngle s)) := fun s => rfl
  rw [hpos s1, hpos s2,
      circle_chord_dist (layoutRadius W H n) (anchorAngle s1) (anchorAngle s2)
        (W / 2) (H / 2) hr0]
  have hk1 : 1 ≤ s1 - s2 := by omega
  have hk15 : s1 - s2 ≤ 15 := by
    have : STEPS = 16 := rfl
    omega
  have hcast : ((s1 - s2 : ℕ) : ℝ) = (s1 : ℝ) - (s2 : ℝ) :=
    Nat.cast_sub (le_of_lt h2)
  have hhalf : (anchorAngle s1 - anchorAngle s2) / 2 =
      ((s1 - s2 : ℕ) : ℝ) * Real.pi / 16 := by
    unfold anchorAngle STEPS
    rw [hcast]
    push_cast
    ring
  rw [hhalf]
  have hsin := sin_step_lower_bound (s1 - s2) hk1 hk15
  have habs : |Real.sin (((s1 - s2 : ℕ) : ℝ) * Real.pi / 16)| =
      Real.sin (((s1 - s2 : ℕ) : ℝ) * Real.pi / 16) :=
    abs_of_nonneg (le_trans (by norm_num) hsin)
  rw [habs]
  have hprod : 2 * 23 * ((4 : ℝ) / 23) ≤
      2 * layoutRadius W H n * Real.sin (((s1 - s2 : ℕ) : ℝ) * Real.pi / 16) := by
    apply mul_le_mul (by linarith) hsin (by norm_num) (by linarith)
  linarith [hprod]

/-- Every entry of the step sequence carries a step below STEPS. -/
theorem stepSequence_step_lt (g : Grid) :
    ∀ p ∈ stepSequenceOf g, p.1 < STEPS := by
  intro p hp
  rw [stepSequenceOf_eq] at hp
  unfold buildChordGroups at hp
  obtain ⟨s, hs, hmap⟩ := List.mem_filterMap.mp hp
  cases hga : groupAt g s with
  | none => rw [hga] at hmap; cases hmap
  | some v =>
    rw [hga] at hmap
    simp only [Option.map_some', Option.some_inj] at hmap
    rw [← hmap]
    exact List.mem_range.mp hs

/-- Claim C7: for every step sequence of size at least 2 and any container
dimensions, after the radial layout pass of positionNodes the straight-line
distance between the anchor positions of any two distinct sequence entries
is at least the 8-unit minimum node gap configured for the 38-unit node
diameter. -/
theorem layout_no_collision (g : Grid) (W H : ℝ) (i j : Nat)
    (hn : 2 ≤ (stepSequenceOf g).length)
    (hi : i < (stepSequenceOf g).length) (hj : j < (stepSequenceOf g).length)
    (hij : i ≠ j) :
    8 ≤ dist2D
      (anchorPos W H (stepSequenceOf g).length
        (((stepSequenceOf g).getD i (0, default)).1))
      (anchorPos W H (stepSequenceOf g).length
        (((stepSequenceOf g).getD j (0, default)).1)) := by
  have hpw := List.pairwise_iff_getElem.mp (stepSequence_sorted g)
  have hlt : ∀ a b : Nat, a < (stepSequenceOf g).length →
      b < (stepSequenceOf g).length → a < b →
      ((stepSequenceOf g).getD a (0, default)).1 <
      ((stepSequenceOf g).getD b (0, default)).1 := by
    intro a b ha hb hab
    rw [List.getD_eq_getElem _ _ ha, List.getD_eq_getElem _ _ hb]
    exact hpw a b ha hb hab
  have hsteplt : ∀ a : Nat, (ha : a < (stepSequenceOf g).length) →
      ((stepSequenceOf g).getD a (0, default)).1 < STEPS := by
    intro a ha
    rw [List.getD_eq_getElem _ _ ha]
    exact stepSequence_step_lt g _ (List.getElem_mem ha)
  rcases Nat.lt_or_ge j i with hji | hge
  · exact layout_gap_core W H (stepSequenceOf g).length _ _ hn
      (hsteplt i hi) (hlt j i hj hi hji)
  · have hijlt : i < j := by omega
    rw [dist2D_comm]
    exact layout_gap_core W H (stepSequenceOf g).length _ _ hn
      (hsteplt j hj) (hlt i j hi hj hijlt)

theorem layout_no_collision_witness :
    2 ≤ (stepSequenceOf gridEx2).length ∧
    8 ≤ dist2D
      (anchorPos 400 380 (stepSequenceOf gridEx2).length
        (((stepSequenceOf gridEx2).getD 0 (0, default)).1))
      (anchorPos 400 380 (stepSequenceOf gridEx2).length
        (((stepSequenceOf gridEx2).getD 1 (0, default)).1)) :=
  ⟨by decide,
   layout_no_collision gridEx2 400 380 0 1 (by decide) (by decide) (by decide)
     (by decide)⟩
